import Mathlib

/-!
Verification development for the file intake widget
(`src/components/file_upload.tsx`, component `DragDropUpload`).

The component keeps three pieces of state: the accepted file list `files`,
the transient error message `error`, and (implicitly, through the browser)
the set of object-URL preview handles created by `URL.createObjectURL`.
We embed the acceptance engine shallowly:

* a candidate file is its `name`, `size` and declared MIME `type`;
* `validateFile` is translated clause for clause from lines 35-58;
* the `forEach` loop of `processFiles` (lines 65-85) becomes the
  structural recursion `processLoop`; along with the `newFiles` and
  `errors` accumulators of the source it records a ghost `log` naming,
  for each candidate in order, which branch of the loop body handled it;
* preview handles are modelled by a fresh-counter allocator: the counter
  `nextHandle` stands for `URL.createObjectURL`, the `released` list for
  the `URL.revokeObjectURL` calls performed so far;
* `removeFile` (lines 138-152) is translated including its runtime
  behaviour on an out-of-range index: `files[index]` is `undefined`
  there, so the property access `fileToRemove.preview` on line 144
  throws a `TypeError`; the embedding returns `Except.error .typeError`
  in exactly that case, before any state update happens (the
  `setFiles`/`onFilesChange` calls on lines 148-149 are not reached);
* the delayed clear `setTimeout(() => setError(null), 5000)` (line 89)
  is modelled by the timed-event semantics `timedEvents`/`lastErrorAt`:
  each batch call emits its `setError` at its call time and, when it had
  rejections, an unconditional clear event 5000 ms later; the timer is
  never cancelled, exactly as in the source.
-/

namespace FileUpload

/-- A candidate file as the widget sees it: `name`, `size` (bytes) and the
declared MIME type (`file.type` in the source, possibly empty). -/
structure FileData where
  name : String
  size : Nat
  mimeType : String
deriving DecidableEq

/-- The configuration props of `DragDropUpload`: `maxFiles`, `maxSize`
(bytes) and the `acceptedTypes` rule list. -/
structure Config where
  maxFiles : Nat
  maxSize : Nat
  acceptedTypes : List String
deriving DecidableEq

/-- JavaScript `s.startsWith(p)`, computed on the character lists
underlying the strings. -/
def jsStartsWith (s p : String) : Bool :=
  p.data.isPrefixOf s.data

/-- JavaScript `s.endsWith(p)`, computed on the character lists
underlying the strings. -/
def jsEndsWith (s p : String) : Bool :=
  p.data.isSuffixOf s.data

/-- JavaScript `s.includes(c)` for a single character `c`. -/
def jsIncludesChar (s : String) (c : Char) : Bool :=
  s.data.contains c

/-- JavaScript `s.toLowerCase()` (ASCII letters, which is all the
acceptance logic distinguishes). -/
def jsToLower (s : String) : String :=
  String.mk (s.data.map Char.toLower)

/-- JavaScript `s.split("/")[0]`: the characters of `s` before its first
slash (all of `s` when it has none). -/
def jsSplitSlashHead (s : String) : String :=
  String.mk (s.data.takeWhile fun c => c != '/')

/-- `Math.round (maxSize / 1024 / 1024)` of the source, for a natural
number of bytes: round half up of `maxSize / 1048576`. -/
def roundMB (maxSize : Nat) : Nat :=
  (2 * maxSize + 1048576) / (2 * 1048576)

/-- The rejection message built on line 37 of the source. -/
def tooLargeMsg (name : String) (maxSize : Nat) : String :=
  "File \"" ++ name ++ "\" is too large. Maximum size is " ++
    toString (roundMB maxSize) ++ "MB."

/-- The rejection message built on line 54 of the source. -/
def unsupportedMsg (name : String) : String :=
  "File \"" ++ name ++ "\" is not a supported file type."

/-- The rejection message built on line 73 of the source. -/
def maxFilesMsg (maxFiles : Nat) : String :=
  "Maximum " ++ toString maxFiles ++ " files allowed."

/-- The per-rule predicate of `acceptedTypes.some (...)` on lines 42-51:
a dot rule matches a lowercased-name suffix; a rule containing `*` takes
the part before the first slash (`type.split("/")[0]`) and tests whether
the declared MIME type starts with it; otherwise exact MIME equality. -/
def ruleMatches (fileType fileName rule : String) : Bool :=
  if jsStartsWith rule "." then
    jsEndsWith fileName rule
  else if jsIncludesChar rule '*' then
    jsStartsWith fileType (jsSplitSlashHead rule)
  else
    fileType == rule

/-- `validateFile` of the source (lines 35-58): the size check first,
then the type-rule check; `none` means the candidate passes. -/
def validateFile (cfg : Config) (file : FileData) : Option String :=
  if cfg.maxSize < file.size then
    some (tooLargeMsg file.name cfg.maxSize)
  else if !(cfg.acceptedTypes.any fun rule =>
      ruleMatches file.mimeType (jsToLower file.name) rule) then
    some (unsupportedMsg file.name)
  else
    none

/-- An accepted-file entry: the file plus the optional preview handle
(`fileWithPreview.preview`, a `URL.createObjectURL` result, modelled as a
fresh natural number). -/
structure Entry where
  file : FileData
  preview : Option Nat
deriving DecidableEq

/-- The engine state: the `files` list, the `error` message, the
fresh-handle counter standing for `URL.createObjectURL`, and the list of
handles passed to `URL.revokeObjectURL` so far. -/
structure EngineState where
  files : List Entry
  error : Option String
  nextHandle : Nat
  released : List Nat
deriving DecidableEq

/-- The state when the widget mounts: `useState([])`, `useState(null)`. -/
def initState : EngineState :=
  { files := [], error := none, nextHandle := 0, released := [] }

/-- Ghost record of which branch of the `forEach` body handled a
candidate: staged for append, rejected by `validateFile` with its
message, or rejected by the capacity check. -/
inductive Outcome where
  | staged
  | rejectedValidation (msg : String)
  | rejectedCapacity
deriving DecidableEq

/-- The accumulator of the `forEach` loop of `processFiles`: the
`newFiles` and `errors` arrays of the source, the handle counter, and
the ghost per-candidate `log`. -/
structure BatchAcc where
  newFiles : List Entry
  errors : List String
  nextHandle : Nat
  log : List Outcome
deriving DecidableEq

/-- The `forEach` loop of `processFiles` (lines 65-85), one candidate at
a time: run `validateFile`; on failure push the message and continue;
else if `files.length + newFiles.length >= maxFiles` push the capacity
message and continue (the `return` in the source only skips to the next
candidate); else allocate a preview when the MIME type starts with
`"image/"` and push the entry onto `newFiles`. -/
def processLoop (cfg : Config) (filesLen : Nat) :
    BatchAcc → List FileData → BatchAcc
  | acc, [] => acc
  | acc, file :: rest =>
    match validateFile cfg file with
    | some e =>
      processLoop cfg filesLen
        { acc with errors := acc.errors ++ [e],
                   log := acc.log ++ [Outcome.rejectedValidation e] } rest
    | none =>
      if cfg.maxFiles ≤ filesLen + acc.newFiles.length then
        processLoop cfg filesLen
          { acc with errors := acc.errors ++ [maxFilesMsg cfg.maxFiles],
                     log := acc.log ++ [Outcome.rejectedCapacity] } rest
      else if jsStartsWith file.mimeType "image/" then
        processLoop cfg filesLen
          { acc with
              newFiles := acc.newFiles ++ [{ file := file, preview := some acc.nextHandle }],
              nextHandle := acc.nextHandle + 1,
              log := acc.log ++ [Outcome.staged] } rest
      else
        processLoop cfg filesLen
          { acc with newFiles := acc.newFiles ++ [{ file := file, preview := none }],
                     log := acc.log ++ [Outcome.staged] } rest

/-- Everything one `processFiles` call produces: the new engine state,
the source's local `newFiles` and `errors` arrays, the ghost log, the
list of `onFilesChange` payloads of the call, and whether a delayed
5-second clear of the error was scheduled (line 89). -/
structure ProcessResult where
  state : EngineState
  newFiles : List Entry
  errors : List String
  log : List Outcome
  notifications : List (List Entry)
  scheduledClear : Bool
deriving DecidableEq

/-- `processFiles` of the source (lines 60-101): run the loop; set
`error` to `errors[0]` when any rejection occurred (scheduling the
delayed clear) and to `null` otherwise; when at least one candidate was
staged, append `newFiles` to `files` and invoke `onFilesChange` once
with the full updated list. -/
def processFiles (cfg : Config) (s : EngineState) (batch : List FileData) :
    ProcessResult :=
  let out := processLoop cfg s.files.length
    { newFiles := [], errors := [], nextHandle := s.nextHandle, log := [] } batch
  { state :=
      { files := if out.newFiles.isEmpty then s.files else s.files ++ out.newFiles,
        error := out.errors.head?,
        nextHandle := out.nextHandle,
        released := s.released },
    newFiles := out.newFiles,
    errors := out.errors,
    log := out.log,
    notifications := if out.newFiles.isEmpty then [] else [s.files ++ out.newFiles],
    scheduledClear := !out.errors.isEmpty }

/-- The runtime error an out-of-range `removeFile` raises: reading
`.preview` off `files[index] = undefined` throws a `TypeError`. -/
inductive JsError where
  | typeError
deriving DecidableEq

/-- The successful outcome of `removeFile`: the new state and the list
of `onFilesChange` payloads of the call. -/
structure RemoveOk where
  state : EngineState
  notifications : List (List Entry)
deriving DecidableEq

/-- `files.filter((_, i) => i !== index)` of line 140, keeping every
element whose position differs from `index`; `i` is the position of the
head of the remaining list. -/
def filterIdxNe (index : Int) : List Entry → Nat → List Entry
  | [], _ => []
  | e :: rest, i =>
    if (i : Int) = index then filterIdxNe index rest (i + 1)
    else e :: filterIdxNe index rest (i + 1)

/-- `removeFile` of the source (lines 138-152): build `updatedFiles`,
read `files[index]` — for an index outside `[0, files.length)` that is
`undefined` and the `.preview` access throws a `TypeError` before any
state change — else revoke the entry's preview handle if present, store
the updated list and notify `onFilesChange` with it. -/
def removeFile (s : EngineState) (index : Int) : Except JsError RemoveOk :=
  let updatedFiles := filterIdxNe index s.files 0
  match (if 0 ≤ index then s.files.get? index.toNat else none) with
  | none => Except.error JsError.typeError
  | some fileToRemove =>
    let released2 :=
      match fileToRemove.preview with
      | some h => s.released ++ [h]
      | none => s.released
    Except.ok
      { state := { s with files := updatedFiles, released := released2 },
        notifications := [updatedFiles] }

/-- Widget disposal. `DragDropUpload` registers no effect cleanup and no
unmount handler (there is no `useEffect` anywhere in the component), so
tearing the widget down runs none of its code: the engine state — in
particular the `released` list — is untouched, and no outstanding
preview handle is revoked. -/
def teardown (s : EngineState) : EngineState := s

/-- The preview handles currently held by entries of `files`: the object
URLs that are still outstanding (allocated and not yet revoked by a
removal). -/
def outstandingHandles (s : EngineState) : List Nat :=
  s.files.filterMap fun e => e.preview

/-- The operations the presentation layer can raise on the engine. -/
inductive Op where
  | submitBatch (batch : List FileData)
  | removeEntry (index : Int)

/-- One operation applied to the engine state. An out-of-range
`removeEntry` throws before `setFiles` runs, so the state is unchanged
in that case. -/
def step (cfg : Config) (s : EngineState) : Op → EngineState
  | Op.submitBatch batch => (processFiles cfg s batch).state
  | Op.removeEntry index =>
    match removeFile s index with
    | Except.ok r => r.state
    | Except.error _ => s

/-- The error message a logged outcome contributed to the `errors`
array, if any. -/
def outcomeMsg (maxFiles : Nat) : Outcome → Option String
  | Outcome.staged => none
  | Outcome.rejectedValidation m => some m
  | Outcome.rejectedCapacity => some (maxFilesMsg maxFiles)

/-- How the loop handles a candidate once the capacity condition holds:
its validation rejection when `validateFile` fails, the capacity
rejection otherwise. -/
def postCapacityOutcome (cfg : Config) (f : FileData) : Outcome :=
  match validateFile cfg f with
  | some m => Outcome.rejectedValidation m
  | none => Outcome.rejectedCapacity

/-- Closed form of the ghost log of `processLoop`: `k` is the number of
candidates staged so far (`newFiles.length`). -/
def logOf (cfg : Config) (filesLen : Nat) : Nat → List FileData → List Outcome
  | _, [] => []
  | k, file :: rest =>
    match validateFile cfg file with
    | some e => Outcome.rejectedValidation e :: logOf cfg filesLen k rest
    | none =>
      if cfg.maxFiles ≤ filesLen + k then
        Outcome.rejectedCapacity :: logOf cfg filesLen k rest
      else
        Outcome.staged :: logOf cfg filesLen (k + 1) rest

/-- The timed semantics of the error banner. Each `processFiles` call at
wall-clock time `t` performs its `setError` at time `t` and, when it had
rejections, schedules `setTimeout(() => setError(null), 5000)` — an
unconditional clear firing at `t + 5000` that the source never cancels. -/
def timedEvents (cfg : Config) :
    EngineState → List (Nat × List FileData) → List (Nat × Option String)
  | _, [] => []
  | s, (t, batch) :: rest =>
    let r := processFiles cfg s batch
    (if r.scheduledClear then [(t, r.state.error), (t + 5000, none)]
     else [(t, r.state.error)]) ++ timedEvents cfg r.state rest

/-- The event with the largest time stamp, later list entries winning
ties (same-time callbacks run in queue order). -/
def latestEvent : List (Nat × Option String) → Option (Nat × Option String)
  | [] => none
  | e :: rest =>
    match latestEvent rest with
    | none => some e
    | some b => if e.1 ≤ b.1 then some b else some e

/-- The value of `error` at wall-clock time `q`, given batch calls at
strictly increasing times: the payload of the latest `setError` or timer
event that has happened by `q`. -/
def lastErrorAt (cfg : Config) (s : EngineState)
    (calls : List (Nat × List FileData)) (q : Nat) : Option String :=
  match latestEvent ((timedEvents cfg s calls).filter fun e => e.1 ≤ q) with
  | none => s.error
  | some e => e.2

/-! Concrete fixtures used by the witness, counterexample and code-bug
theorems below. Each group instantiates the widget with small inputs. -/

/-- `maxFiles = 1` with only the image wildcard rule. -/
def cfgA : Config := { maxFiles := 1, maxSize := 2000, acceptedTypes := ["image/*"] }

def fileA1 : FileData := { name := "a.png", size := 100, mimeType := "image/png" }

def fileA2 : FileData := { name := "b.png", size := 100, mimeType := "image/png" }

/-- Oversized: 3000 bytes against `maxSize = 2000`. -/
def fileA3 : FileData := { name := "c.png", size := 3000, mimeType := "image/png" }

def batchA : List FileData := [fileA1, fileA2, fileA3]

/-- Wildcard-rule probe: declared MIME type `images/png` starts with
`image` but not with `image/`. -/
def cfgB : Config := { maxFiles := 5, maxSize := 99999, acceptedTypes := ["image/*"] }

def fileB : FileData := { name := "a.bin", size := 10, mimeType := "images/png" }

/-- A two-entry accepted list for the out-of-range removal probe. -/
def stateC : EngineState :=
  { files := [{ file := fileA1, preview := none }, { file := fileA2, preview := none }],
    error := none, nextHandle := 0, released := [] }

def cfgD : Config :=
  { maxFiles := 5, maxSize := 10485760, acceptedTypes := ["image/*", "application/pdf"] }

def fileD : FileData := { name := "a.png", size := 10, mimeType := "image/png" }

/-- State after accepting one image: entry holds preview handle `0`. -/
def stateD : EngineState := (processFiles cfgD initState [fileD]).state

def cfgE : Config := { maxFiles := 5, maxSize := 1000, acceptedTypes := ["image/*"] }

def fileE1 : FileData := { name := "a.exe", size := 10, mimeType := "application/x-msdownload" }

def fileE2 : FileData := { name := "b.exe", size := 10, mimeType := "application/x-msdownload" }

/-- Two wholly rejected batches, 1000 ms apart: each sets an error and
schedules an uncancelled clear 5000 ms after its own call. -/
def callsE : List (Nat × List FileData) := [(0, [fileE1]), (1000, [fileE2])]

def cfgF : Config := { maxFiles := 5, maxSize := 1000, acceptedTypes := ["image/*"] }

def stateF : EngineState :=
  { files := [{ file := fileA1, preview := none }, { file := fileA2, preview := none }],
    error := none, nextHandle := 0, released := [] }

def batchF : List FileData := [fileA1]

def cfgG : Config := { maxFiles := 1, maxSize := 1000, acceptedTypes := ["image/*"] }

def fileG1 : FileData := { name := "g1.png", size := 10, mimeType := "image/png" }

def fileG2 : FileData := { name := "g2.png", size := 10, mimeType := "image/png" }

def opsG : List Op :=
  [Op.submitBatch [fileG1], Op.submitBatch [fileG2], Op.submitBatch [fileG2, fileG2]]

/-- A state already at capacity (`maxFiles = 1`). -/
def stateG : EngineState :=
  { files := [{ file := fileG1, preview := some 0 }],
    error := none, nextHandle := 1, released := [] }

def cfgH : Config := { maxFiles := 5, maxSize := 1000, acceptedTypes := ["image/*"] }

def fileH1 : FileData := { name := "ok.png", size := 10, mimeType := "image/png" }

/-- Oversized: 4000 bytes against `maxSize = 1000`. -/
def fileH2 : FileData := { name := "big.png", size := 4000, mimeType := "image/png" }

def batchH : List FileData := [fileH1, fileH2]

/-- The entry `processFiles cfgH` stages for `fileH1`. -/
def entryH : Entry := { file := fileH1, preview := some 0 }

def cfgK : Config :=
  { maxFiles := 5, maxSize := 1000, acceptedTypes := ["image/*", "application/pdf"] }

def fileK1 : FileData := { name := "a.png", size := 10, mimeType := "image/png" }

def fileK2 : FileData := { name := "b.pdf", size := 10, mimeType := "application/pdf" }

def batchK : List FileData := [fileK1, fileK2]

/-- The image entry `processFiles cfgK` stages for `fileK1`. -/
def entryK : Entry := { file := fileK1, preview := some 0 }


theorem processLoop_log (cfg : Config) (fl : Nat) (l : List FileData) :
    ∀ acc : BatchAcc,
      (processLoop cfg fl acc l).log = acc.log ++ logOf cfg fl acc.newFiles.length l := by
  induction l with
  | nil => intro acc; simp [processLoop, logOf]
  | cons file rest ih =>
    intro acc
    cases h : validateFile cfg file with
    | some e =>
      simp only [processLoop, logOf, h]
      rw [ih]
      simp [List.append_assoc]
    | none =>
      by_cases hc : cfg.maxFiles ≤ fl + acc.newFiles.length
      · simp only [processLoop, logOf, h, if_pos hc]
        rw [ih]
        simp [List.append_assoc]
      · by_cases hi : jsStartsWith file.mimeType "image/" = true
        · simp only [processLoop, logOf, h, if_neg hc, if_pos hi]
          rw [ih]
          simp [List.append_assoc]
        · simp only [processLoop, logOf, h, if_neg hc, if_neg hi]
          rw [ih]
          simp [List.append_assoc]

theorem processLoop_errors (cfg : Config) (fl : Nat) (l : List FileData) :
    ∀ acc : BatchAcc,
      (processLoop cfg fl acc l).errors =
        acc.errors ++ (logOf cfg fl acc.newFiles.length l).filterMap (outcomeMsg cfg.maxFiles) := by
  induction l with
  | nil => intro acc; simp [processLoop, logOf]
  | cons file rest ih =>
    intro acc
    cases h : validateFile cfg file with
    | some e =>
      simp only [processLoop, logOf, h]
      rw [ih]
      simp [outcomeMsg, List.append_assoc]
    | none =>
      by_cases hc : cfg.maxFiles ≤ fl + acc.newFiles.length
      · simp only [processLoop, logOf, h, if_pos hc]
        rw [ih]
        simp [outcomeMsg, List.append_assoc]
      · by_cases hi : jsStartsWith file.mimeType "image/" = true
        · simp only [processLoop, logOf, h, if_neg hc, if_pos hi]
          rw [ih]
          simp [outcomeMsg, List.append_assoc]
        · simp only [processLoop, logOf, h, if_neg hc, if_neg hi]
          rw [ih]
          simp [outcomeMsg, List.append_assoc]

theorem logOf_sticky (cfg : Config) (fl : Nat) (l : List FileData) :
    ∀ k : Nat, cfg.maxFiles ≤ fl + k →
      logOf cfg fl k l = l.map (postCapacityOutcome cfg) := by
  induction l with
  | nil => intro k _; simp [logOf]
  | cons file rest ih =>
    intro k hk
    cases h : validateFile cfg file with
    | some e =>
      simp only [logOf, h, List.map, postCapacityOutcome]
      rw [ih k hk]
    | none =>
      simp only [logOf, h, if_pos hk, List.map, postCapacityOutcome]
      rw [ih k hk]

theorem processLoop_newFiles_sticky (cfg : Config) (fl : Nat) (l : List FileData) :
    ∀ acc : BatchAcc, cfg.maxFiles ≤ fl + acc.newFiles.length →
      (processLoop cfg fl acc l).newFiles = acc.newFiles := by
  induction l with
  | nil => intro acc _; simp [processLoop]
  | cons file rest ih =>
    intro acc hk
    cases h : validateFile cfg file with
    | some e =>
      simp only [processLoop, h]
      exact ih _ hk
    | none =>
      simp only [processLoop, h, if_pos hk]
      exact ih _ hk

theorem processLoop_bound (cfg : Config) (fl : Nat) (l : List FileData) :
    ∀ acc : BatchAcc, fl + acc.newFiles.length ≤ cfg.maxFiles →
      fl + (processLoop cfg fl acc l).newFiles.length ≤ cfg.maxFiles := by
  induction l with
  | nil => intro acc hb; simpa [processLoop] using hb
  | cons file rest ih =>
    intro acc hb
    cases h : validateFile cfg file with
    | some e =>
      simp only [processLoop, h]
      exact ih _ hb
    | none =>
      by_cases hc : cfg.maxFiles ≤ fl + acc.newFiles.length
      · simp only [processLoop, h, if_pos hc]
        exact ih _ hb
      · push_neg at hc
        by_cases hi : jsStartsWith file.mimeType "image/" = true
        · simp only [processLoop, h, if_neg (not_le.mpr hc), if_pos hi]
          apply ih
          simp
          omega
        · simp only [processLoop, h, if_neg (not_le.mpr hc), if_neg hi]
          apply ih
          simp
          omega

theorem processLoop_mem (cfg : Config) (fl : Nat) (l : List FileData) :
    ∀ acc : BatchAcc, ∀ e ∈ (processLoop cfg fl acc l).newFiles,
      e ∈ acc.newFiles ∨ validateFile cfg e.file = none := by
  induction l with
  | nil => intro acc e he; exact Or.inl (by simpa [processLoop] using he)
  | cons file rest ih =>
    intro acc e he
    cases h : validateFile cfg file with
    | some msg =>
      simp only [processLoop, h] at he
      have h2 := ih _ e he
      simpa using h2
    | none =>
      by_cases hc : cfg.maxFiles ≤ fl + acc.newFiles.length
      · simp only [processLoop, h, if_pos hc] at he
        have h2 := ih _ e he
        simpa using h2
      · by_cases hi : jsStartsWith file.mimeType "image/" = true
        · simp only [processLoop, h, if_neg hc, if_pos hi] at he
          rcases ih _ e he with h2 | h2
          · rcases List.mem_append.mp h2 with h3 | h3
            · exact Or.inl h3
            · right
              have : e = { file := file, preview := some acc.nextHandle } := by
                simpa using h3
              rw [this]
              exact h
          · exact Or.inr h2
        · simp only [processLoop, h, if_neg hc, if_neg hi] at he
          rcases ih _ e he with h2 | h2
          · rcases List.mem_append.mp h2 with h3 | h3
            · exact Or.inl h3
            · right
              have : e = { file := file, preview := none } := by
                simpa using h3
              rw [this]
              exact h
          · exact Or.inr h2


theorem processLoop_preview (cfg : Config) (fl : Nat) (l : List FileData) :
    ∀ acc : BatchAcc,
      (∀ e ∈ acc.newFiles, e.preview.isSome = jsStartsWith e.file.mimeType "image/") →
      ∀ e ∈ (processLoop cfg fl acc l).newFiles,
        e.preview.isSome = jsStartsWith e.file.mimeType "image/" := by
  induction l with
  | nil => intro acc hacc e he; exact hacc e (by simpa [processLoop] using he)
  | cons file rest ih =>
    intro acc hacc e he
    cases h : validateFile cfg file with
    | some msg =>
      simp only [processLoop, h] at he
      refine ih _ ?_ e he
      intro x hx
      exact hacc x hx
    | none =>
      by_cases hc : cfg.maxFiles ≤ fl + acc.newFiles.length
      · simp only [processLoop, h, if_pos hc] at he
        refine ih _ ?_ e he
        intro x hx
        exact hacc x hx
      · by_cases hi : jsStartsWith file.mimeType "image/" = true
        · simp only [processLoop, h, if_neg hc, if_pos hi] at he
          refine ih _ ?_ e he
          intro x hx
          rcases List.mem_append.mp hx with h3 | h3
          · exact hacc x h3
          · have hx2 : x = { file := file, preview := some acc.nextHandle } := by simpa using h3
            rw [hx2]
            simp [hi]
        · simp only [processLoop, h, if_neg hc, if_neg hi] at he
          refine ih _ ?_ e he
          intro x hx
          rcases List.mem_append.mp hx with h3 | h3
          · exact hacc x h3
          · have hx2 : x = { file := file, preview := none } := by simpa using h3
            rw [hx2]
            simp [(Bool.not_eq_true _).mp hi]

theorem processLoop_handles (cfg : Config) (fl : Nat) (l : List FileData) :
    ∀ acc : BatchAcc,
      (processLoop cfg fl acc l).nextHandle +
          (acc.newFiles.filter fun e => e.preview.isSome).length =
        acc.nextHandle +
          ((processLoop cfg fl acc l).newFiles.filter fun e => e.preview.isSome).length := by
  induction l with
  | nil => intro acc; simp [processLoop]
  | cons file rest ih =>
    intro acc
    cases h : validateFile cfg file with
    | some msg =>
      simp only [processLoop, h]
      exact ih _
    | none =>
      by_cases hc : cfg.maxFiles ≤ fl + acc.newFiles.length
      · simp only [processLoop, h, if_pos hc]
        exact ih _
      · by_cases hi : jsStartsWith file.mimeType "image/" = true
        · simp only [processLoop, h, if_neg hc, if_pos hi]
          have h2 := ih { acc with
            newFiles := acc.newFiles ++ [{ file := file, preview := some acc.nextHandle }],
            nextHandle := acc.nextHandle + 1,
            log := acc.log ++ [Outcome.staged] }
          simp [List.filter_append] at h2
          omega
        · simp only [processLoop, h, if_neg hc, if_neg hi]
          have h2 := ih { acc with
            newFiles := acc.newFiles ++ [{ file := file, preview := none }],
            log := acc.log ++ [Outcome.staged] }
          simp [List.filter_append] at h2
          omega

theorem validateFile_none_size (cfg : Config) (f : FileData) :
    validateFile cfg f = none → f.size ≤ cfg.maxSize := by
  intro h
  by_contra hlt
  push_neg at hlt
  simp [validateFile, hlt] at h

theorem validateFile_tooLarge (cfg : Config) (f : FileData) :
    cfg.maxSize < f.size → validateFile cfg f = some (tooLargeMsg f.name cfg.maxSize) := by
  intro h
  simp [validateFile, h]

theorem logOf_capacity_after (cfg : Config) (fl : Nat) (l : List FileData) :
    ∀ k i j : Nat, i < j →
      (logOf cfg fl k l).get? i = some Outcome.rejectedCapacity →
      (logOf cfg fl k l).get? j = (l.get? j).map (postCapacityOutcome cfg) := by
  induction l with
  | nil => intro k i j _ hi; simp [logOf] at hi
  | cons file rest ih =>
    intro k i j hij hi
    cases h : validateFile cfg file with
    | some e =>
      simp only [logOf, h] at hi ⊢
      cases i with
      | zero => simp at hi
      | succ i2 =>
        cases j with
        | zero => omega
        | succ j2 =>
          simp only [List.get?_cons_succ] at hi ⊢
          exact ih k i2 j2 (by omega) hi
    | none =>
      by_cases hc : cfg.maxFiles ≤ fl + k
      · simp only [logOf, h, if_pos hc] at hi ⊢
        cases j with
        | zero => omega
        | succ j2 =>
          simp only [List.get?_cons_succ]
          rw [logOf_sticky cfg fl rest k hc]
          exact List.get?_map _ _ _
      · simp only [logOf, h, if_neg hc] at hi ⊢
        cases i with
        | zero => simp at hi
        | succ i2 =>
          cases j with
          | zero => omega
          | succ j2 =>
            simp only [List.get?_cons_succ] at hi ⊢
            exact ih (k + 1) i2 j2 (by omega) hi


theorem filterIdxNe_high (index : Int) (l : List Entry) :
    ∀ i : Nat, index < (i : Int) → filterIdxNe index l i = l := by
  induction l with
  | nil => intro i _; simp [filterIdxNe]
  | cons e rest ih =>
    intro i hi
    rw [filterIdxNe, if_neg (by omega)]
    rw [ih (i + 1) (by push_cast; omega)]

theorem filterIdxNe_length_le (index : Int) (l : List Entry) :
    ∀ i : Nat, (filterIdxNe index l i).length ≤ l.length := by
  induction l with
  | nil => intro i; simp [filterIdxNe]
  | cons e rest ih =>
    intro i
    rw [filterIdxNe]
    by_cases h : (i : Int) = index
    · rw [if_pos h]
      have := ih (i + 1)
      simp
      omega
    · rw [if_neg h]
      have := ih (i + 1)
      simp
      omega

theorem filterIdxNe_length_inRange (index : Int) (l : List Entry) :
    ∀ i : Nat, (i : Int) ≤ index → index < (i : Int) + l.length →
      (filterIdxNe index l i).length + 1 = l.length := by
  induction l with
  | nil => intro i h1 h2; simp at h2; omega
  | cons e rest ih =>
    intro i h1 h2
    rw [filterIdxNe]
    by_cases h : (i : Int) = index
    · rw [if_pos h]
      rw [filterIdxNe_high index rest (i + 1) (by push_cast; omega)]
      simp
    · rw [if_neg h]
      have h3 := ih (i + 1) (by push_cast; omega) (by push_cast at h2 ⊢; simp at h2; omega)
      simp
      omega

theorem removeFile_outOfRange (s : EngineState) (index : Int) :
    index < 0 ∨ (s.files.length : Int) ≤ index →
    removeFile s index = Except.error JsError.typeError := by
  intro h
  rcases h with h | h
  · rw [removeFile, if_neg (by omega)]
  · rw [removeFile, if_pos (by omega)]
    rw [List.get?_eq_none.mpr (by omega)]

theorem removeFile_inRange (s : EngineState) (index : Int)
    (h1 : 0 ≤ index) (h2 : index.toNat < s.files.length) :
    ∃ ok : RemoveOk, removeFile s index = Except.ok ok ∧
      ok.notifications = [ok.state.files] ∧
      ok.state.files.length + 1 = s.files.length ∧
      ok.state.files = filterIdxNe index s.files 0 ∧
      ok.state.released =
        (match (s.files.get ⟨index.toNat, h2⟩).preview with
         | some h => s.released ++ [h]
         | none => s.released) := by
  rw [removeFile, if_pos h1, List.get?_eq_get h2]
  refine ⟨_, rfl, rfl, ?_, rfl, rfl⟩
  exact filterIdxNe_length_inRange index s.files 0 (by omega) (by omega)


/-! Corollaries at the `processFiles` level: instantiating the loop
lemmas at the empty accumulator. -/

theorem processFiles_log (cfg : Config) (s : EngineState) (batch : List FileData) :
    (processFiles cfg s batch).log = logOf cfg s.files.length 0 batch := by
  have h := processLoop_log cfg s.files.length batch
    { newFiles := [], errors := [], nextHandle := s.nextHandle, log := [] }
  simpa [processFiles] using h

theorem processFiles_errors (cfg : Config) (s : EngineState) (batch : List FileData) :
    (processFiles cfg s batch).errors =
      (logOf cfg s.files.length 0 batch).filterMap (outcomeMsg cfg.maxFiles) := by
  have h := processLoop_errors cfg s.files.length batch
    { newFiles := [], errors := [], nextHandle := s.nextHandle, log := [] }
  simpa [processFiles] using h

theorem processFiles_len_le (cfg : Config) (s : EngineState) (batch : List FileData)
    (hs : s.files.length ≤ cfg.maxFiles) :
    ((processFiles cfg s batch).state.files).length ≤ cfg.maxFiles := by
  have h := processLoop_bound cfg s.files.length batch
    { newFiles := [], errors := [], nextHandle := s.nextHandle, log := [] } (by simpa using hs)
  by_cases he : (processLoop cfg s.files.length
      { newFiles := [], errors := [], nextHandle := s.nextHandle, log := [] } batch).newFiles.isEmpty
  · simpa [processFiles, he] using hs
  · simp only [processFiles, he]
    simpa using h

theorem step_len_le (cfg : Config) (s : EngineState) (op : Op)
    (hs : s.files.length ≤ cfg.maxFiles) :
    ((step cfg s op).files).length ≤ cfg.maxFiles := by
  cases op with
  | submitBatch batch => exact processFiles_len_le cfg s batch hs
  | removeEntry index =>
    rw [step]
    cases hr : removeFile s index with
    | error e => exact hs
    | ok r =>
      rw [removeFile] at hr
      cases hg : (if 0 ≤ index then s.files.get? index.toNat else none) with
      | none => rw [hg] at hr; cases hr
      | some fileToRemove =>
        rw [hg] at hr
        have : r.state.files = filterIdxNe index s.files 0 := by
          cases hr2 : fileToRemove.preview <;> simp [hr2] at hr <;> rw [← hr]
        rw [this]
        exact le_trans (filterIdxNe_length_le index s.files 0) hs

theorem foldl_step_len_le (cfg : Config) (ops : List Op) :
    ∀ s : EngineState, s.files.length ≤ cfg.maxFiles →
      ((ops.foldl (step cfg) s).files).length ≤ cfg.maxFiles := by
  induction ops with
  | nil => intro s hs; simpa using hs
  | cons op rest ih =>
    intro s hs
    exact ih (step cfg s op) (step_len_le cfg s op hs)

theorem postCapacityOutcome_ne_staged (cfg : Config) (f : FileData) :
    postCapacityOutcome cfg f ≠ Outcome.staged := by
  rw [postCapacityOutcome]
  cases h : validateFile cfg f <;> simp

/-! The claim theorems, with their witnesses and counterexamples. -/

/-- C1 (amended): once a candidate of a `submitBatch` call is rejected by
the capacity check, no later candidate of the same batch is staged; but
the loop does not stop — each later candidate is still validated first,
so it is recorded with its own `TooLarge`/`UnsupportedType` message when
`validateFile` fails on it, and with the `CapacityExceeded` message only
when it passes validation. -/
theorem submitBatch_capacity_point (cfg : Config) (s : EngineState) (batch : List FileData)
    (i j : Nat) (hij : i < j)
    (hi : (processFiles cfg s batch).log.get? i = some Outcome.rejectedCapacity) :
    (processFiles cfg s batch).log.get? j = (batch.get? j).map (postCapacityOutcome cfg)
    ∧ (processFiles cfg s batch).log.get? j ≠ some Outcome.staged := by
  rw [processFiles_log] at hi
  have h := logOf_capacity_after cfg s.files.length batch 0 i j hij hi
  constructor
  · rw [processFiles_log]
    exact h
  · rw [processFiles_log, h]
    cases hb : batch.get? j with
    | none => simp
    | some f => simpa using postCapacityOutcome_ne_staged cfg f

/-- Witness for `submitBatch_capacity_point`: in `batchA` under `cfgA`
(capacity 1) the second candidate hits the capacity check and the third
is then handled by validation-first dispatch. -/
theorem submitBatch_capacity_point_witness :
    (processFiles cfgA initState batchA).log.get? 2 =
        (batchA.get? 2).map (postCapacityOutcome cfgA)
    ∧ (processFiles cfgA initState batchA).log.get? 2 ≠ some Outcome.staged :=
  submitBatch_capacity_point cfgA initState batchA 1 2 (by omega) (by decide)

/-- C1 counterexample to the claim as stated: after the capacity point
(candidate 1 of `batchA`), candidate 2 is recorded with its `TooLarge`
validation message, not with `CapacityExceeded`. -/
theorem submitBatch_capacity_point_cex :
    (processFiles cfgA initState batchA).log.get? 1 = some Outcome.rejectedCapacity
    ∧ (processFiles cfgA initState batchA).log.get? 2 =
        some (Outcome.rejectedValidation (tooLargeMsg "c.png" 2000))
    ∧ Outcome.rejectedValidation (tooLargeMsg "c.png" 2000) ≠ Outcome.rejectedCapacity :=
  ⟨by decide, by decide, by decide⟩

/-- C2 (amended): a wildcard type rule (one that is not a dot rule and
contains `*`) matches exactly when the candidate's declared MIME type
starts with the part of the rule before its first slash — the slash
itself is not required. -/
theorem wildcardRule_matches (fileType fileName rule base : String)
    (h1 : jsStartsWith rule "." = false) (h2 : jsIncludesChar rule '*' = true)
    (h3 : jsSplitSlashHead rule = base) :
    ruleMatches fileType fileName rule = jsStartsWith fileType base := by
  simp [ruleMatches, h1, h2, h3]

/-- Witness for `wildcardRule_matches` at rule `"image/*"`. -/
theorem wildcardRule_matches_witness :
    ruleMatches "images/png" "a.bin" "image/*" = jsStartsWith "images/png" "image" :=
  wildcardRule_matches "images/png" "a.bin" "image/*" "image" (by decide) (by decide) (by decide)

/-- C2 counterexample to the claim as stated: under the single rule
`"image/*"`, a candidate whose declared MIME type is `"images/png"` —
which starts with `"image"` but not with `"image/"` — is counted as
matching and passes validation. -/
theorem wildcardRule_matches_cex :
    validateFile cfgB fileB = none
    ∧ ruleMatches "images/png" "a.bin" "image/*" = true
    ∧ jsStartsWith "images/png" "image/" = false :=
  ⟨by decide, by decide, by decide⟩

/-- C3: `removeFile` on the two-element list `stateC.files` with the
out-of-range indices `5` and `-1` reads `.preview` off the `undefined`
value `files[index]` and therefore throws a `TypeError` that propagates
out of the handler — it is neither a no-op return nor a locally
signalled `IndexOutOfRange` condition (the state is left unchanged only
because the throw happens before `setFiles`). -/
theorem removeEntry_throws_out_of_range :
    removeFile stateC 5 = Except.error JsError.typeError
    ∧ removeFile stateC (-1) = Except.error JsError.typeError
    ∧ stateC.files.length = 2 :=
  ⟨rfl, rfl, rfl⟩

/-- C4: after accepting one image, `stateD` holds the outstanding
preview handle `0`; removal would release it exactly once, but widget
teardown runs no cleanup — `released` stays empty, so the outstanding
handle is never revoked on disposal. -/
theorem teardown_leaks_outstanding_preview :
    outstandingHandles stateD = [0]
    ∧ (teardown stateD).released = []
    ∧ outstandingHandles (teardown stateD) = [0]
    ∧ removeFile stateD 0 = Except.ok
        { state := { files := [], error := none, nextHandle := 1, released := [0] },
          notifications := [[]] } :=
  ⟨rfl, rfl, rfl, rfl⟩

/-- C5: the first batch (at t = 0) schedules an uncancelled clear at
t = 5000; the second batch (at t = 1000) replaces the error, but the
first batch's timer still clears it at t = 5000 — 4000 ms into the
second error's supposed 5-second window (which would end at 6000). -/
theorem staleTimer_clears_new_error :
    lastErrorAt cfgE initState callsE 1000 = some (unsupportedMsg "b.exe")
    ∧ lastErrorAt cfgE initState callsE 4999 = some (unsupportedMsg "b.exe")
    ∧ lastErrorAt cfgE initState callsE 5000 = none
    ∧ lastErrorAt cfgE initState callsE 5999 = none :=
  ⟨by decide, by decide, by decide, by decide⟩

/-- C6: `processFiles` invokes `onFilesChange` exactly once with the
full updated list when at least one candidate was staged and not at all
when the batch is wholly rejected; an in-range `removeFile` invokes it
exactly once with the updated list, which is one entry shorter. -/
theorem notification_contract (cfg : Config) (s : EngineState) (batch : List FileData) :
    ((processFiles cfg s batch).notifications =
      if (processFiles cfg s batch).newFiles.isEmpty then []
      else [(processFiles cfg s batch).state.files])
    ∧ ∀ index : Int, 0 ≤ index → index.toNat < s.files.length →
        ∃ ok : RemoveOk, removeFile s index = Except.ok ok
          ∧ ok.notifications = [ok.state.files]
          ∧ ok.state.files.length + 1 = s.files.length := by
  constructor
  · by_cases h : (processLoop cfg s.files.length
        { newFiles := [], errors := [], nextHandle := s.nextHandle, log := [] } batch).newFiles.isEmpty
    · simp [processFiles, h]
    · simp [processFiles, h]
  · intro index h1 h2
    obtain ⟨ok, hok, hn, hl, _, _⟩ := removeFile_inRange s index h1 h2
    exact ⟨ok, hok, hn, hl⟩

/-- Witness for `notification_contract`: a staged batch on `stateF` and
the in-range removal of index 1. -/
theorem notification_contract_witness :
    ((processFiles cfgF stateF batchF).notifications =
      if (processFiles cfgF stateF batchF).newFiles.isEmpty then []
      else [(processFiles cfgF stateF batchF).state.files])
    ∧ ∃ ok : RemoveOk, removeFile stateF 1 = Except.ok ok
        ∧ ok.notifications = [ok.state.files]
        ∧ ok.state.files.length + 1 = stateF.files.length :=
  ⟨(notification_contract cfgF stateF batchF).1,
   (notification_contract cfgF stateF batchF).2 1 (by decide) (by decide)⟩

/-- C7: after `processFiles`, `error` is exactly the message of the
first rejected candidate in candidate order (`errors[0]`; `none` when no
candidate was rejected, i.e. the error is cleared immediately), the
delayed clear is scheduled exactly when a rejection occurred, and a call
at time `t` emits its `setError` at `t` plus — when scheduled — the
clear at `t + 5000`. -/
theorem lastError_is_first_rejection (cfg : Config) (s : EngineState) (batch : List FileData) :
    (processFiles cfg s batch).state.error =
      ((processFiles cfg s batch).log.filterMap (outcomeMsg cfg.maxFiles)).head?
    ∧ (processFiles cfg s batch).scheduledClear =
        !((processFiles cfg s batch).log.filterMap (outcomeMsg cfg.maxFiles)).isEmpty
    ∧ ∀ t : Nat, timedEvents cfg s [(t, batch)] =
        if (processFiles cfg s batch).scheduledClear then
          [(t, (processFiles cfg s batch).state.error), (t + 5000, none)]
        else [(t, (processFiles cfg s batch).state.error)] := by
  have hlog := processFiles_log cfg s batch
  have herr := processFiles_errors cfg s batch
  have h1 : (processFiles cfg s batch).state.error = (processFiles cfg s batch).errors.head? := rfl
  have h2 : (processFiles cfg s batch).scheduledClear
      = !(processFiles cfg s batch).errors.isEmpty := rfl
  refine ⟨?_, ?_, ?_⟩
  · rw [h1, herr, hlog]
  · rw [h2, herr, hlog]
  · intro t
    simp [timedEvents]

/-- C8: starting from the empty mount state, any sequence of
`submitBatch` and `removeEntry` operations keeps
`files.length ≤ maxFiles`; and from a state already at capacity, a
`submitBatch` changes nothing and every candidate that passes validation
is rejected by the capacity check. -/
theorem capacity_invariant (cfg : Config) :
    (∀ ops : List Op, ((ops.foldl (step cfg) initState).files).length ≤ cfg.maxFiles)
    ∧ ∀ s : EngineState, ∀ batch : List FileData, s.files.length = cfg.maxFiles →
        (processFiles cfg s batch).state.files = s.files
        ∧ ∀ i : Nat, ∀ f : FileData, batch.get? i = some f → validateFile cfg f = none →
            (processFiles cfg s batch).log.get? i = some Outcome.rejectedCapacity := by
  constructor
  · intro ops
    exact foldl_step_len_le cfg ops initState (by simp [initState])
  · intro s batch hs
    have hcap : cfg.maxFiles ≤ s.files.length + 0 := by omega
    constructor
    · have h := processLoop_newFiles_sticky cfg s.files.length batch
        { newFiles := [], errors := [], nextHandle := s.nextHandle, log := [] } (by simpa using hcap)
      simp [processFiles, h]
    · intro i f hb hv
      rw [processFiles_log, logOf_sticky cfg s.files.length batch 0 hcap]
      rw [List.get?_map, hb]
      simp [postCapacityOutcome, hv]

/-- Witness for `capacity_invariant`: a three-operation trace under
capacity 1, and a capacity-saturated state rejecting a valid image. -/
theorem capacity_invariant_witness :
    ((opsG.foldl (step cfgG) initState).files).length ≤ cfgG.maxFiles
    ∧ (processFiles cfgG stateG [fileG2]).state.files = stateG.files
    ∧ (processFiles cfgG stateG [fileG2]).log.get? 0 = some Outcome.rejectedCapacity := by
  have h := capacity_invariant cfgG
  have h2 := h.2 stateG [fileG2] (by decide)
  exact ⟨h.1 opsG, h2.1, h2.2 0 fileG2 (by decide) (by decide)⟩

/-- C9: a candidate larger than `maxSize` is rejected by `validateFile`
with the `TooLarge` message before the type rules are even consulted
(the statement carries no hypothesis about them); the message contains
the file's display name and the limit in MB rounded; and no entry whose
file exceeds `maxSize` is ever appended to the accepted list. -/
theorem tooLarge_precedence (cfg : Config) (s : EngineState) (batch : List FileData)
    (file : FileData) (hbig : cfg.maxSize < file.size) :
    validateFile cfg file = some (tooLargeMsg file.name cfg.maxSize)
    ∧ (∃ p q : List Char, (tooLargeMsg file.name cfg.maxSize).data = p ++ file.name.data ++ q)
    ∧ (∃ u v : List Char,
        (tooLargeMsg file.name cfg.maxSize).data =
          u ++ (toString (roundMB cfg.maxSize)).data ++ v)
    ∧ ∀ e ∈ (processFiles cfg s batch).state.files, e ∈ s.files ∨ e.file.size ≤ cfg.maxSize := by
  refine ⟨validateFile_tooLarge cfg file hbig, ?_, ?_, ?_⟩
  · refine ⟨("File \"").data,
      ("\" is too large. Maximum size is " ++ toString (roundMB cfg.maxSize) ++ "MB.").data, ?_⟩
    simp only [tooLargeMsg, String.data_append, List.append_assoc]
  · refine ⟨("File \"" ++ file.name ++ "\" is too large. Maximum size is ").data,
      ("MB.").data, ?_⟩
    simp only [tooLargeMsg, String.data_append, List.append_assoc]
  · intro e he
    by_cases hne : (processLoop cfg s.files.length
        { newFiles := [], errors := [], nextHandle := s.nextHandle, log := [] } batch).newFiles.isEmpty
    · left
      simpa [processFiles, hne] using he
    · simp [processFiles, hne] at he
      rcases he with h | h
      · exact Or.inl h
      · rcases processLoop_mem cfg s.files.length batch
          { newFiles := [], errors := [], nextHandle := s.nextHandle, log := [] } e h with h2 | h2
        · simp at h2
        · exact Or.inr (validateFile_none_size cfg e.file h2)

/-- Witness for `tooLarge_precedence`: the 4000-byte `fileH2` against
`maxSize = 1000`, and the staged entry for `fileH1`. -/
theorem tooLarge_precedence_witness :
    validateFile cfgH fileH2 = some (tooLargeMsg "big.png" 1000)
    ∧ (∃ p q : List Char, (tooLargeMsg "big.png" 1000).data = p ++ ("big.png").data ++ q)
    ∧ (entryH ∈ initState.files ∨ entryH.file.size ≤ cfgH.maxSize) := by
  have h := tooLarge_precedence cfgH initState batchH fileH2 (by decide)
  exact ⟨h.1, h.2.1, h.2.2.2 entryH (by decide)⟩

/-- C10: during a `submitBatch` call a preview handle is allocated
exactly for the staged entries whose declared MIME type starts with
`"image/"`: every staged entry carries a preview precisely when it is an
image, and the allocator counter advances by exactly the number of
staged entries holding a preview — so rejected candidates allocate
nothing. -/
theorem preview_allocation (cfg : Config) (s : EngineState) (batch : List FileData) :
    (∀ e ∈ (processFiles cfg s batch).newFiles,
        e.preview.isSome = jsStartsWith e.file.mimeType "image/")
    ∧ (processFiles cfg s batch).state.nextHandle =
        s.nextHandle +
          ((processFiles cfg s batch).newFiles.filter fun e => e.preview.isSome).length := by
  constructor
  · intro e he
    refine processLoop_preview cfg s.files.length batch
      { newFiles := [], errors := [], nextHandle := s.nextHandle, log := [] } ?_ e ?_
    · intro x hx
      simp at hx
    · simpa [processFiles] using he
  · have h := processLoop_handles cfg s.files.length batch
      { newFiles := [], errors := [], nextHandle := s.nextHandle, log := [] }
    simp only [List.filter_nil, List.length_nil, Nat.add_zero] at h
    simpa [processFiles] using h

/-- Witness for `preview_allocation`: a batch staging one image (handle
`0` allocated) and one PDF (no handle). -/
theorem preview_allocation_witness :
    entryK.preview.isSome = jsStartsWith entryK.file.mimeType "image/"
    ∧ (processFiles cfgK initState batchK).state.nextHandle =
        initState.nextHandle +
          ((processFiles cfgK initState batchK).newFiles.filter fun e => e.preview.isSome).length :=
  ⟨(preview_allocation cfgK initState batchK).1 entryK (by decide),
   (preview_allocation cfgK initState batchK).2⟩

end FileUpload
